import Mathlib

/-!
Verification development for the `tlcs900asm` assembler (TLCS-900/TMP94C241).

The definitions below are a shallow embedding of the C sources:
* `output.c`    — output buffer, `output_set_base`, `emit_byte`, `emit_word`, …
* `symbols.c`   — symbol table, `symbol_define`, `symbol_lookup`, `symbol_get_value`
* `expressions.c` — the expression evaluator (value/known/is_constant semantics)
* `macros.c`    — the macro-expansion depth accounting
* `errors.c`    — `assembler_assemble_file`, the iterative sizing loop
* `parser.c`    — line-head (label vs. mnemonic) recognition
* `codegen.c`   — register/condition code tables, `emit_mem_operand`,
  `emit_direct_mem_operand`, `encode_nop`, `encode_jr`, `encode_ld` (the
  register/immediate section), `encode_instruction` dispatch
* `directives.c` — `handle_org`

Machine integers are modelled as `Nat`/`Int` with explicit wrap-arounds at the
points where the C code converts between integer types.  States are passed
explicitly; C functions that report errors through `error(as, …)` append a tag
to an explicit error log.  Paths of the C code that none of the stated theorems
exercise are marked by setting a `model_gap` flag in the state; every
end-to-end theorem asserts that this flag stayed `false`, i.e. that the run
remained inside the faithfully translated fragment.
-/

namespace Tlcs900

/-! ## C integer conversions -/

/-- 2^32, the modulus of `uint32_t` arithmetic. -/
def U32 : Nat := 4294967296

/-- C cast `(int)x` from `int64_t`: wrap into the signed 32-bit range
(implementation-defined in C; all supported compilers wrap). -/
def toInt32 (x : Int) : Int := (x + 2147483648) % 4294967296 - 2147483648

/-- C conversion to `uint8_t` (mod 256). -/
def toUInt8n (x : Int) : Nat := (x % 256).toNat

/-- C conversion to `uint16_t` (mod 2^16). -/
def toUInt16n (x : Int) : Nat := (x % 65536).toNat

/-- C conversion to `uint32_t` (mod 2^32). -/
def toUInt32n (x : Int) : Nat := (x % 4294967296).toNat

/-- Arithmetic shift right on `Int` (C `>>` on a negative left operand is
arithmetic on the compilers this project supports): floor division by 2^n. -/
def asr (v : Int) (n : Nat) : Int := Int.fdiv v (2 ^ n)

/-! ## Enumerations from `include/tlcs900.h` -/

/-- `RegisterType` from the header (prev-bank PUSH/POP registers omitted;
no theorem below mentions them). -/
inductive RegisterType
  | none
  | A | W | C | B | E | D | L | H
  | QA | QW | QC | QB | QE | QD | QL | QH
  | IXL | IXH | IYL | IYH | IZL | IZH
  | QIXL | QIXH | QIYL | QIYH | QIZL | QIZH
  | WA | BC | DE | HL | IX | IY | IZ | SP
  | QWA | QBC | QDE | QHL | QIX | QIY | QIZ
  | XWA | XBC | XDE | XHL | XIX | XIY | XIZ | XSP
  | QXWA | QXBC | QXDE | QXHL
  | PC | SR | F | Fprime
  deriving DecidableEq, Repr

/-- `OperandSize` from the header. -/
inductive OperandSize
  | none | byte | word | long
  deriving DecidableEq, Repr

/-- `AddressingMode` from the header. -/
inductive AddressingMode
  | none | immediate | register | registerInd | registerIndInc | registerIndDec
  | indexed | indexedReg | direct | relative | bit | condition
  deriving DecidableEq, Repr

/-- `SymbolType` from the header (`SYM_MACRO` is spelt `macroKind`). -/
inductive SymbolType
  | label | equ | set | macroKind | section
  deriving DecidableEq, Repr

/-- Tags for the diagnostics the C code prints through `error(as, …)`; each
constructor corresponds to one `error` call site relevant to the theorems.
`divByZero` covers both messages "division by zero" and "modulo by zero" of
`expressions.c` (the spec's single `DivByZero` class). -/
inductive AsmErr
  | divByZero            -- expressions.c: "division by zero" / "modulo by zero"
  | undefinedSymbol      -- expressions.c: "undefined symbol '%s'"
  | redefinition         -- symbols.c: "symbol '%s' already defined at %s:%d"
  | invalidRegister      -- codegen.c: invalid register for an addressing mode
  | unsupportedMemMode   -- codegen.c: "unsupported addressing mode for memory operand"
  | jrRequiresOperand    -- codegen.c: "JR requires an operand"
  | jrRequiresImmediate  -- codegen.c: "JR requires an immediate target"
  | jrOutOfRange         -- codegen.c: "JR offset out of range (use JRL for longer jumps)"
  | ldRequiresTwoOperands -- codegen.c: "LD requires two operands"
  | invalidOrg           -- directives.c: "invalid ORG expression" / unknown in pass 2
  | invalidOperand       -- parser.c: "invalid operand"
  | expectedInstruction  -- parser.c: "expected instruction or directive"
  | unknownInstruction   -- parser.c: "unknown instruction or macro: %s"
  deriving DecidableEq, Repr

/-! ## Data model: `Operand`, `Symbol`, `Assembler` state -/

/-- `Operand` from the header (plus the `is_constant` field used throughout
`codegen.c`).  Defaults mirror the `memset(op, 0, sizeof *op)` in
`parse_operand`. -/
structure Operand where
  mode : AddressingMode := .none
  size : OperandSize := .none
  reg : RegisterType := .none
  index_reg : RegisterType := .none
  value : Int := 0
  value_known : Bool := false
  is_constant : Bool := false
  symbol : String := ""
  addr_size : Int := 0
  deriving DecidableEq, Repr

/-- `Symbol` from the header (macro bodies are modelled separately, see the
macro section). -/
structure Symbol where
  name : String
  type : SymbolType
  value : Int
  defined : Bool
  referenced : Bool := false
  deriving DecidableEq, Repr

/-- The `Assembler` process state: program counter, origin, output buffer
(`output` is exactly the first `output_size` bytes of the C buffer, so
`output.length` plays the role of `output_size`), symbol table, and pass
bookkeeping.  `errlog` records the diagnostics printed by `error()`;
`model_gap` is set when a run leaves the translated fragment of the source. -/
structure AsmState where
  pc : Nat := 0
  org : Nat := 0
  output : List Nat := []
  output_base : Nat := 0
  symbols : List Symbol := []
  pass : Nat := 1
  errors : Bool := false
  error_count : Nat := 0
  errlog : List AsmErr := []
  model_gap : Bool := false
  deriving DecidableEq, Repr

/-- `error(as, …)` from `errors.c`: prints the diagnostic (modelled by the
log) and sets `errors` / bumps `error_count`. -/
def errorLog (as : AsmState) (e : AsmErr) : AsmState :=
  { as with errors := true, error_count := as.error_count + 1,
            errlog := as.errlog ++ [e] }

/-! ## `output.c` -/

/-- `output_set_base`: record the base address, but only while nothing has
been written to the output buffer. -/
def output_set_base (as : AsmState) (base : Nat) : AsmState :=
  if as.output.length = 0 then { as with output_base := base } else as

/-- `emit_byte`: during pass 1 (sizing) only advance the program counter;
during pass 2 write at offset `pc - output_base` (a `uint32_t` difference),
zero-filling any gap, then advance the program counter. -/
def emit_byte (as : AsmState) (b : Nat) : AsmState :=
  if as.pass ≠ 2 then { as with pc := (as.pc + 1) % U32 }
  else
    let offset := (as.pc + U32 - as.output_base) % U32
    let out :=
      if as.output.length ≤ offset then
        (as.output ++ List.replicate (offset + 1 - as.output.length) 0).set offset b
      else
        as.output.set offset b
    { as with output := out, pc := (as.pc + 1) % U32 }

/-- `emit_byte` with the implicit `int → uint8_t` conversion performed at
C call sites that pass an `int` expression. -/
def emitByteI (as : AsmState) (x : Int) : AsmState := emit_byte as (toUInt8n x)

/-- `emit_word`: two bytes, little-endian (`w` is the `uint16_t` argument). -/
def emit_word (as : AsmState) (w : Nat) : AsmState :=
  emit_byte (emit_byte as (w % 256)) ((w / 256) % 256)

/-- `emit_word` with the `(uint16_t)` cast done by C call sites. -/
def emitWordI (as : AsmState) (x : Int) : AsmState := emit_word as (toUInt16n x)

/-- `emit_long`: four bytes, little-endian (`l` is the `uint32_t` argument). -/
def emit_long (as : AsmState) (l : Nat) : AsmState :=
  emit_byte (emit_byte (emit_byte (emit_byte as (l % 256)) ((l / 256) % 256))
    ((l / 65536) % 256)) ((l / 16777216) % 256)

/-- `emit_long` with the `(uint32_t)` cast done by C call sites. -/
def emitLongI (as : AsmState) (x : Int) : AsmState := emit_long as (toUInt32n x)

/-! ## `symbols.c` -/

/-- ASCII upper-casing of one character (`toupper`). -/
def upChar (c : Char) : Char :=
  if 97 ≤ c.toNat ∧ c.toNat ≤ 122 then Char.ofNat (c.toNat - 32) else c

/-- `strcasecmp(a, b) == 0` (ASCII case-insensitive name equality). -/
def strcaseeq (a b : String) : Bool := a.data.map upChar = b.data.map upChar

/-- `symbol_lookup`: first symbol whose name matches case-insensitively. -/
def symbol_lookup (as : AsmState) (name : String) : Option Symbol :=
  as.symbols.find? (fun s => strcaseeq s.name name)

/-- Replace the entry `symbol_lookup` finds for `name` (the C code mutates
the single matching node of the hash chain). -/
def replaceSym : List Symbol → String → Symbol → List Symbol
  | [], _, _ => []
  | s :: t, name, upd =>
    if strcaseeq s.name name then upd :: t else s :: replaceSym t name upd

/-- `symbol_define` from `symbols.c`:
* an existing entry where either side is `Set` is re-bound (value, kind);
* an existing *defined* entry is a "symbol already defined" error whenever
  `pass == 1`;
* otherwise ("update value in pass 2") the value is updated in place;
* a fresh name is inserted at the head of the chain. -/
def symbol_define (as : AsmState) (name : String) (ty : SymbolType) (value : Int) :
    AsmState × Option Symbol :=
  match symbol_lookup as name with
  | some existing =>
    if existing.type = .set ∨ ty = .set then
      let upd := { existing with value := value, defined := true, type := ty }
      ({ as with symbols := replaceSym as.symbols name upd }, some upd)
    else if existing.defined ∧ as.pass = 1 then
      (errorLog as .redefinition, none)
    else
      let upd := { existing with value := value, defined := true }
      ({ as with symbols := replaceSym as.symbols name upd }, some upd)
  | none =>
    let sym : Symbol := ⟨name, ty, value, true, false⟩
    ({ as with symbols := sym :: as.symbols }, some sym)

/-- `symbol_get_value`: mark the symbol referenced; yield its value only when
it exists and is defined (the C function stores the value unconditionally but
returns `sym->defined`, and its callers use the value only on `true`). -/
def symbol_get_value (as : AsmState) (name : String) : AsmState × Option Int :=
  match symbol_lookup as name with
  | none => (as, none)
  | some sym =>
    let as := { as with symbols := replaceSym as.symbols name { sym with referenced := true } }
    if sym.defined then (as, some sym.value) else (as, none)

/-- Modelled from the spec: `symbol_get_type` is declared `extern` in
`expressions.c` but has no definition anywhere in this tree.  Per its
prototype and its single call site — classifying an identifier as constant
exactly when its symbol kind is Equ or Set (spec §4.2) — it returns the kind
recorded in the symbol table; the `.label` default is unreachable at the call
site, which runs only after `symbol_get_value` succeeded. -/
def symbol_get_type (as : AsmState) (name : String) : SymbolType :=
  match symbol_lookup as name with
  | some sym => sym.type
  | none => .label

/-! ## `expressions.c`

The recursive-descent evaluator is embedded at the level of the expression
tree it recognises; each `Expr` constructor corresponds to one production of
`parse_expr_*`, and the evaluation of a node reproduces exactly the value /
`known` / `is_const` updates and `error()` calls of the corresponding C
function.  The C code threads `known` and `is_const` as in-out flags
initialised to `true` by `expr_parse` and combined with `&&` at every binary
node, which is the same as the bottom-up combination below. -/

/-- Binary operators of `parse_expr_or` … `parse_expr_multiplicative`. -/
inductive BinOp
  | lor | land | bor | bxor | band
  | eq | ne | lt | le | gt | ge
  | shl | shr | add | sub | mul | div | mod
  deriving DecidableEq, Repr

/-- Unary operators of `parse_expr_unary`. -/
inductive UnOp
  | neg | plus | bnot | lnot
  deriving DecidableEq, Repr

/-- Expression trees as recognised by `expressions.c`. -/
inductive Expr
  | num (value : Int)        -- TOK_NUMBER
  | chr (value : Int)        -- TOK_CHAR
  | pcDollar                 -- TOK_DOLLAR, the current address
  | ident (name : String)    -- symbol reference
  | highFn (e : Expr)        -- HIGH(e) / HI(e)
  | lowFn (e : Expr)         -- LOW(e) / LO(e)
  | bankFn (e : Expr)        -- BANK(e)
  | un (op : UnOp) (e : Expr)
  | bin (op : BinOp) (a b : Expr)
  deriving DecidableEq, Repr

/-- Value semantics of the binary operators on `int64_t` (comparisons and the
logical operators yield 0/1; `/` and `%` are C truncated division, used only
after the zero check; shifts by the C-defined amounts — a negative or huge
shift count is undefined behaviour in C and is modelled by `Int.toNat`). -/
def evalBin (op : BinOp) (a b : Int) : Int :=
  match op with
  | .lor => if a ≠ 0 ∨ b ≠ 0 then 1 else 0
  | .land => if a ≠ 0 ∧ b ≠ 0 then 1 else 0
  | .bor => Int.lor a b
  | .bxor => Int.xor a b
  | .band => Int.land a b
  | .eq => if a = b then 1 else 0
  | .ne => if a ≠ b then 1 else 0
  | .lt => if a < b then 1 else 0
  | .le => if a ≤ b then 1 else 0
  | .gt => if b < a then 1 else 0
  | .ge => if b ≤ a then 1 else 0
  | .shl => a * 2 ^ b.toNat
  | .shr => asr a b.toNat
  | .add => a + b
  | .sub => a - b
  | .mul => a * b
  | .div => Int.tdiv a b
  | .mod => Int.tmod a b

/-- Value semantics of the unary operators (`~x` is the two's-complement
complement `-x-1`; `!x` is 0/1). -/
def evalUn (op : UnOp) (v : Int) : Int :=
  match op with
  | .neg => -v
  | .plus => v
  | .bnot => -v - 1
  | .lnot => if v = 0 then 1 else 0

/-- The expression evaluator.  A result of `none` corresponds to the C parse
function returning `false` (after reporting a diagnostic): no value is
produced and the failure propagates to `expr_parse`.  The triple is
`(value, known, is_const)`. -/
def evalExpr (as : AsmState) : Expr → AsmState × Option (Int × Bool × Bool)
  | .num v => (as, some (v, true, true))
  | .chr v => (as, some (v, true, true))
  | .pcDollar => (as, some ((as.pc : Int), true, false))
  | .ident name =>
    match symbol_get_value as name with
    | (as, some v) =>
      if symbol_get_type as name = .equ ∨ symbol_get_type as name = .set then
        (as, some (v, true, true))
      else
        (as, some (v, true, false))
    | (as, none) =>
      if as.pass = 1 then (as, some (0, false, false))
      else (errorLog as .undefinedSymbol, none)
  | .highFn e =>
    match evalExpr as e with
    | (as, some (v, k, c)) => (as, some (Int.land (asr v 8) 255, k, c))
    | (as, none) => (as, none)
  | .lowFn e =>
    match evalExpr as e with
    | (as, some (v, k, c)) => (as, some (Int.land v 255, k, c))
    | (as, none) => (as, none)
  | .bankFn e =>
    match evalExpr as e with
    | (as, some (v, k, c)) => (as, some (Int.land (asr v 16) 255, k, c))
    | (as, none) => (as, none)
  | .un op e =>
    match evalExpr as e with
    | (as, some (v, k, c)) => (as, some (evalUn op v, k, c))
    | (as, none) => (as, none)
  | .bin op a b =>
    match evalExpr as a with
    | (as, none) => (as, none)
    | (as, some (va, ka, ca)) =>
      match evalExpr as b with
      | (as, none) => (as, none)
      | (as, some (vb, kb, cb)) =>
        if (op = .div ∨ op = .mod) ∧ vb = 0 then
          (errorLog as .divByZero, none)
        else
          (as, some (evalBin op va vb, ka && kb, ca && cb))

/-- `expr_parse`: the entry point of the evaluator. -/
def expr_parse (as : AsmState) (e : Expr) : AsmState × Option (Int × Bool × Bool) :=
  evalExpr as e

/-! ## `codegen.c` — register and condition code tables -/

/-- `get_reg8_code`. -/
def get_reg8_code (reg : RegisterType) : Int :=
  match reg with
  | .W => 0 | .A => 1 | .B => 2 | .C => 3
  | .D => 4 | .E => 5 | .H => 6 | .L => 7
  | .IXL => 8 | .IXH => 9 | .IYL => 10 | .IYH => 11
  | .IZL => 12 | .IZH => 13
  | .QW => 16 | .QA => 17 | .QB => 18 | .QC => 19
  | .QD => 20 | .QE => 21 | .QH => 22 | .QL => 23
  | .QIXL => 24 | .QIXH => 25 | .QIYL => 26 | .QIYH => 27
  | .QIZL => 28 | .QIZH => 29
  | _ => -1

/-- `get_reg16_code`. -/
def get_reg16_code (reg : RegisterType) : Int :=
  match reg with
  | .WA => 0 | .BC => 1 | .DE => 2 | .HL => 3
  | .IX => 4 | .IY => 5 | .IZ => 6 | .SP => 7
  | .QWA => 8 | .QBC => 9 | .QDE => 10 | .QHL => 11
  | .QIX => 12 | .QIY => 13 | .QIZ => 14
  | _ => -1

/-- `get_reg32_code`. -/
def get_reg32_code (reg : RegisterType) : Int :=
  match reg with
  | .XWA => 0 | .XBC => 1 | .XDE => 2 | .XHL => 3
  | .XIX => 4 | .XIY => 5 | .XIZ => 6 | .XSP => 7
  | _ => -1

/-- `get_cc_code`: the C switch maps every enumerator 0 … 15 to its own
value and everything else to 8 (`CC_T`). -/
def get_cc_code (cc : Int) : Int :=
  if 0 ≤ cc ∧ cc ≤ 15 then cc else 8

/-! ## `codegen.c` — memory operand emission -/

/-- `emit_mem_operand`: the standalone memory-operand byte (0x00-0x6F for
register forms, 0x38/0x39/0x3A + address for direct addressing).  For a
`Direct` operand with `addr_size == 0` the address width is auto-selected:
8-bit only for `is_constant` values that fit in a byte, else 16- or 24-bit by
magnitude; the comparisons act on `(int)op->value`. -/
def emit_mem_operand (as : AsmState) (op : Operand) : AsmState × Bool :=
  match op.mode with
  | .registerInd =>
    let code := get_reg32_code op.reg
    let code := if code < 0 then get_reg16_code op.reg else code
    if code < 0 then (errorLog as .invalidRegister, false)
    else (emitByteI as code, true)
  | .registerIndInc =>
    let code := get_reg32_code op.reg
    let code := if code < 0 then get_reg16_code op.reg else code
    if code < 0 then (errorLog as .invalidRegister, false)
    else (emitByteI as (0x40 + code), true)
  | .registerIndDec =>
    let code := get_reg32_code op.reg
    let code := if code < 0 then get_reg16_code op.reg else code
    if code < 0 then (errorLog as .invalidRegister, false)
    else (emitByteI as (0x48 + code), true)
  | .indexed =>
    let code := get_reg32_code op.reg
    let code := if code < 0 then get_reg16_code op.reg else code
    if code < 0 then (errorLog as .invalidRegister, false)
    else if op.index_reg ≠ .none then
      let idx := get_reg16_code op.index_reg
      let idx := if idx < 0 then get_reg8_code op.index_reg else idx
      if idx < 0 then (errorLog as .invalidRegister, false)
      else (emitByteI (emitByteI as (0x60 + code)) idx, true)
    else
      let disp := toInt32 op.value
      if -128 ≤ disp ∧ disp ≤ 127 then
        (emitByteI (emitByteI as (0x50 + code)) disp, true)
      else
        (emitWordI (emitByteI as (0x58 + code)) disp, true)
  | .direct =>
    let addr := toInt32 op.value
    let addr_size :=
      if op.addr_size = 0 then
        if addr ≤ 0xFF ∧ op.is_constant then (8 : Int)
        else if addr ≤ 0xFFFF then 16
        else 24
      else op.addr_size
    if addr_size = 8 then
      (emitByteI (emitByteI as 0x38) addr, true)
    else if addr_size = 16 then
      (emitWordI (emitByteI as 0x39) addr, true)
    else
      -- case 24 and the C switch's default
      let as := emitByteI as 0x3A
      let as := emitByteI as (Int.land addr 255)
      let as := emitByteI as (Int.land (asr addr 8) 255)
      let as := emitByteI as (Int.land (asr addr 16) 255)
      (as, true)
  | _ => (errorLog as .unsupportedMemMode, false)

/-- `emit_direct_mem_operand`: direct memory operand with a data-size-aware
prefix (0xC0/0xD0/0xE0 + address-size code 0/1/2), used by the compact LD
forms.  The address width auto-selection is the same as in
`emit_mem_operand`. -/
def emit_direct_mem_operand (as : AsmState) (op : Operand) (data_size : OperandSize) :
    AsmState × Bool :=
  let addr := toInt32 op.value
  let addr_size :=
    if op.addr_size = 0 then
      if addr ≤ 0xFF ∧ op.is_constant then (8 : Int)
      else if addr ≤ 0xFFFF then 16
      else 24
    else op.addr_size
  let addr_code : Int := if addr_size = 8 then 0 else if addr_size = 16 then 1 else 2
  let base : Int :=
    match data_size with
    | .byte => 0xC0
    | .word => 0xD0
    | .long => 0xE0
    | _ => 0xC0
  let as := emitByteI as (base + addr_code)
  if addr_size = 8 then (emitByteI as addr, true)
  else if addr_size = 16 then (emitWordI as addr, true)
  else
    let as := emitByteI as (Int.land addr 255)
    let as := emitByteI as (Int.land (asr addr 8) 255)
    let as := emitByteI as (Int.land (asr addr 16) 255)
    (as, true)

/-! ## `codegen.c` — instruction encoders used by the theorems -/

/-- `encode_nop`. -/
def encode_nop (as : AsmState) (_ops : List Operand) : AsmState × Bool :=
  (emitByteI as 0x00, true)

/-- The body of `encode_jr` once condition code and target operand have been
selected: always emit the two bytes `0x60+cc` and the displacement
`target − (pc+2)` (as `uint8_t`), then report "JR offset out of range" only
when `pass > 1` and the displacement falls outside [-128, 127]. -/
def encode_jr_at (as : AsmState) (cc : Int) (target : Operand) : AsmState × Bool :=
  if target.mode ≠ .immediate then (errorLog as .jrRequiresImmediate, false)
  else
    let offset : Int := target.value - (((as.pc + 2) % U32 : Nat) : Int)
    let as := emitByteI as (0x60 + get_cc_code cc)
    let as := emitByteI as offset
    let as :=
      if 1 < as.pass ∧ (offset < -128 ∨ 127 < offset) then errorLog as .jrOutOfRange
      else as
    (as, true)

/-- `encode_jr`: with two or more operands whose first is a condition, the
condition's value is the code and the second operand is the target; otherwise
the first operand is the target and the condition defaults to `CC_T` (8). -/
def encode_jr (as : AsmState) (ops : List Operand) : AsmState × Bool :=
  match ops with
  | [] => (errorLog as .jrRequiresOperand, false)
  | [op0] => encode_jr_at as 8 op0
  | op0 :: op1 :: _ =>
    if op0.mode = .condition then encode_jr_at as op0.value op1
    else encode_jr_at as 8 op0

/-- `encode_ld`, register/immediate section (the part of the function the
stated theorems exercise; the remaining operand shapes — register/register,
memory forms — are outside the translated fragment and set `model_gap`).
The first branch is the byte short form `0x20+code, imm`; the following
branches are the word/long immediate forms as in the source, including the
two-byte `0xD8+code, 0xA8+imm` pattern for `LD rr, 0..7`. -/
def encode_ld (as : AsmState) (ops : List Operand) : AsmState × Bool :=
  match ops with
  | dst :: src :: _ =>
    if dst.mode = .register ∧ dst.size = .byte ∧ src.mode = .immediate ∧
        0 ≤ get_reg8_code dst.reg then
      let code := get_reg8_code dst.reg
      (emitByteI (emitByteI as (0x20 + code)) src.value, true)
    else if dst.mode = .register ∧ src.mode = .immediate then
      if dst.size = .byte then
        -- dead in the source: every code ≥ 0 was caught by the short form
        let code := get_reg8_code dst.reg
        if 0 ≤ code ∧ code < 8 then
          (emitByteI (emitByteI as (0x20 + code)) src.value, true)
        else if 0 ≤ code then
          let as := emitByteI as (0xC8 + Int.fdiv code 2)
          let as := emitByteI as (0x30 + Int.land code 1)
          (emitByteI as src.value, true)
        else ({ as with model_gap := true }, false)
      else if dst.size = .word then
        let code := get_reg16_code dst.reg
        if 0 ≤ code ∧ code < 8 then
          if 0 ≤ src.value ∧ src.value ≤ 7 ∧ code < 7 then
            (emitByteI (emitByteI as (0xD8 + code)) (0xA8 + src.value), true)
          else
            (emitWordI (emitByteI as (0x30 + code)) src.value, true)
        else if 0 ≤ code then
          let as := emitByteI as (0xD8 + code)
          let as := emitByteI as 0x30
          (emitWordI as src.value, true)
        else ({ as with model_gap := true }, false)
      else if dst.size = .long then
        let code := get_reg32_code dst.reg
        if 0 ≤ code ∧ code < 8 then
          (emitLongI (emitByteI as (0x40 + code)) src.value, true)
        else if 0 ≤ code then
          let as := emitByteI as (0xE8 + code)
          let as := emitByteI as 0x30
          (emitLongI as src.value, true)
        else ({ as with model_gap := true }, false)
      else ({ as with model_gap := true }, false)
    else
      ({ as with model_gap := true }, false)
  | _ => (errorLog as .ldRequiresTwoOperands, false)

/-- The mnemonic dispatch table of `encode_instruction`, restricted to the
encoders embedded above (the full table lists ≈70 mnemonics; the programs in
the theorems use only these three). -/
def instruction_table : List (String × (AsmState → List Operand → AsmState × Bool)) :=
  [("NOP", encode_nop), ("JR", encode_jr), ("LD", encode_ld)]

/-- `encode_instruction`: case-insensitive table lookup; an unknown mnemonic
returns `false` so the caller can attempt macro expansion. -/
def encode_instruction (as : AsmState) (mnemonic : String) (ops : List Operand) :
    AsmState × Bool :=
  match instruction_table.find? (fun e => strcaseeq mnemonic e.1) with
  | some e => e.2 as ops
  | none => (as, false)

/-! ## `directives.c` — ORG -/

/-- `handle_org`: evaluate the address expression, reject an unknown value in
pass 2, then set `pc` and `org` (as `uint32_t`) and call `output_set_base`.
The single error tag covers both diagnostics of the C function. -/
def handle_org (as : AsmState) (e : Expr) : AsmState × Bool :=
  match expr_parse as e with
  | (as, none) => (errorLog as .invalidOrg, false)
  | (as, some (v, known, _)) =>
    if known = false ∧ as.pass = 2 then (errorLog as .invalidOrg, false)
    else
      let a := toUInt32n v
      let as := { as with pc := a, org := a }
      (output_set_base as a, true)

/-! ## Statement-level pipeline

The end-to-end theorems run small concrete programs through the passes.  A
source line is represented by its parse: the operand records `parse_operand`
builds from the tokens of the line (registers and conditions resolved through
the parser's tables, expressions kept as trees and evaluated per pass exactly
as the C re-parses every line in every pass).  The tokenisation of each
concrete scenario line is noted where the program is defined. -/

/-- A parsed operand before per-pass expression evaluation, as recognised by
`parse_operand` (only the shapes the scenario programs contain). -/
inductive SrcOperand
  | reg (r : RegisterType) (size : OperandSize)  -- a register name
  | cond (cc : Int)                              -- a condition-code name
  | imm (e : Expr)                               -- `#expr` or a bare expression
  | directMem (e : Expr) (addrSize : Int)        -- `(expr)` with optional `:n`
  deriving DecidableEq, Repr

/-- Build the `Operand` record for one parsed operand, evaluating its
expression in the current state (mirrors the field assignments of
`parse_operand_internal`).  The snapshot's `parser.c` calls a three-argument
`expr_parse` without the `is_constant` out-parameter; the evaluator in
`expressions.c` produces it, and `codegen.c` consumes it, so the flag is
threaded through here. -/
def evalSrcOperand (as : AsmState) (sop : SrcOperand) : AsmState × Option Operand :=
  match sop with
  | .reg r size => (as, some { mode := .register, reg := r, size := size })
  | .cond cc => (as, some { mode := .condition, value := cc })
  | .imm e =>
    match expr_parse as e with
    | (as, some (v, k, c)) =>
      (as, some { mode := .immediate, value := v, value_known := k, is_constant := c })
    | (as, none) => (errorLog as .invalidOperand, none)
  | .directMem e n =>
    match expr_parse as e with
    | (as, some (v, k, c)) =>
      (as, some { mode := .direct, value := v, value_known := k, is_constant := c,
                  addr_size := n })
    | (as, none) => (errorLog as .invalidOperand, none)

/-- Evaluate the operand list; on a failed operand the parse loop of
`parse_line` stops collecting and encoding proceeds with the operands
gathered so far. -/
def evalOperands (as : AsmState) : List SrcOperand → AsmState × List Operand
  | [] => (as, [])
  | sop :: rest =>
    match evalSrcOperand as sop with
    | (as, none) => (as, [])
    | (as, some op) =>
      let (as, ops) := evalOperands as rest
      (as, op :: ops)

/-- A parsed source line. -/
inductive Stmt
  | org (e : Expr)                                            -- `ORG expr`
  | labelOnly (name : String)                                 -- `NAME:`
  | instr (label : Option String) (mnemonic : String) (ops : List SrcOperand)
  deriving Repr

/-- Process one line, mirroring the tail of `parse_line`: directives first
(`ORG` here), then the label definition at the current `pc`, then operand
evaluation and instruction encoding with the macro fallback (the scenario
programs define no macros, so an actual expansion would leave the fragment). -/
def processStmt (as : AsmState) (st : Stmt) : AsmState :=
  match st with
  | .org e => (handle_org as e).1
  | .labelOnly name => (symbol_define as name .label (as.pc : Int)).1
  | .instr lab mn ops =>
    let as :=
      match lab with
      | some name => (symbol_define as name .label (as.pc : Int)).1
      | none => as
    let (as, vops) := evalOperands as ops
    let (as, handled) := encode_instruction as mn vops
    if handled then as
    else if (symbol_lookup as mn).any (fun s => s.type = .macroKind) then
      { as with model_gap := true }
    else errorLog as .unknownInstruction

/-- One pass over the whole program (`process_file` line loop). -/
def runProgram (prog : List Stmt) (as : AsmState) : AsmState :=
  prog.foldl processStmt as

/-! ## `errors.c` — `assembler_assemble_file`, the iterative sizing loop

The loop is embedded generically over the per-iteration body: `step`
performs one full sizing iteration (with the per-iteration resets) and
returns the new state, the final `pc` of the iteration, and whether the
iteration recorded errors — `process_file` returns `!as->errors`, and the
driver returns immediately on `false`.  (`had_pass1_errors` in the source is
set only after a check that already returned on any error, so it is provably
always `false` where it is read and is omitted here.) -/

/-- `MAX_ITERATIONS` from `assembler_assemble_file`. -/
def MAX_ITERATIONS : Nat := 10

/-- Result of a driver run. -/
structure DriverRes (σ : Type) where
  state : σ
  iterations : Nat
  sizingAborted : Bool   -- the early `return false` after an erroring iteration
  warned : Bool          -- "sizes did not stabilize after 10 iterations"
  emitRan : Bool
  success : Bool
  deriving DecidableEq, Repr

/-- The code after the sizing loop: warn when `iteration >= MAX_ITERATIONS`,
then run pass 2. -/
def driver_after_loop {σ : Type} (emitP : σ → σ × Bool) (s : σ) (iteration : Nat) :
    DriverRes σ :=
  let warned := decide (MAX_ITERATIONS ≤ iteration)
  let r := emitP s
  ⟨r.1, iteration, false, warned, true, r.2⟩

/-- The `do { … } while (iteration < MAX_ITERATIONS)` sizing loop.  The fuel
argument starts at `MAX_ITERATIONS` and strictly dominates the remaining trip
count, so the `0` case is never reached from the entry point. -/
def driver_go {σ : Type} (step : σ → σ × Nat × Bool) (emitP : σ → σ × Bool) :
    Nat → σ → Nat → Nat → DriverRes σ
  | 0, s, iteration, _ => driver_after_loop emitP s iteration
  | fuel + 1, s, iteration, last_pc =>
    let it := iteration + 1
    let r := step s
    if r.2.2 then ⟨r.1, it, true, false, false, false⟩
    else if 1 < it ∧ r.2.1 = last_pc then driver_after_loop emitP r.1 it
    else if it < MAX_ITERATIONS then driver_go step emitP fuel r.1 it r.2.1
    else driver_after_loop emitP r.1 it

/-- `assembler_assemble_file`: run sizing iterations to the fixed point (or
the iteration bound, or an erroring iteration), then the emit pass. -/
def assembler_assemble_file {σ : Type} (step : σ → σ × Nat × Bool)
    (emitP : σ → σ × Bool) (s : σ) : DriverRes σ :=
  driver_go step emitP MAX_ITERATIONS s 0 0

/-- One sizing iteration of the concrete pipeline: the per-iteration resets
(`pass = 1`, `pc = org = 0`, error flags cleared — symbols and the error log
persist), then the line loop. -/
def sizing_step (prog : List Stmt) (as : AsmState) : AsmState × Nat × Bool :=
  let as := { as with pass := 1, pc := 0, org := 0, errors := false, error_count := 0 }
  let as := runProgram prog as
  (as, as.pc, as.errors)

/-- The emit pass of the concrete pipeline (`pass = 2` section of
`assembler_assemble_file`); the returned flag is the driver's success. -/
def emit_step (prog : List Stmt) (as : AsmState) : AsmState × Bool :=
  let as := { as with pass := 2, pc := 0, org := 0, errors := false, error_count := 0 }
  let as := runProgram prog as
  (as, !as.errors)

/-- Assemble a program from the fresh state built by `assembler_new`
(`pass = 1`, everything else zero/empty). -/
def assembleProgram (prog : List Stmt) : DriverRes AsmState :=
  assembler_assemble_file (sizing_step prog) (emit_step prog) {}

/-! ## `parser.c` — line-head recognition (label vs. mnemonic)

For the claims about label recognition the token level matters, so the head
of `parse_line` is embedded over token lists.  A line is its token list plus
the fact whether its first character is a non-blank (`line[0] != ' ' &&
line[0] != '\t'`, the "column 1" test). -/

/-- The token shapes needed here (the list end plays the role of
`TOK_NEWLINE`/`TOK_EOF`). -/
inductive Tok
  | ident (s : String)
  | num (v : Int)
  | colon
  | comma
  | equalsTok
  | hash
  deriving DecidableEq, Repr

/-- A source line for the token-level parser. -/
structure SrcLine where
  col1 : Bool
  toks : List Tok
  deriving DecidableEq, Repr

/-- The directive names recognised by `handle_directive` (`directives.c`). -/
def is_any_directive (name : String) : Bool :=
  ["ORG", "EQU", "=", "SET", "DB", "DEFB", "DC.B", "FCB", "BYT", ".BYTE",
   "DW", "DEFW", "DC.W", "FDB", "WOR", ".WORD", "DATA",
   "DD", "DEFL", "DC.L", ".LONG", "DS", "DEFS", "RMB", "RES", ".BLKB",
   "ALIGN", "INCLUDE", "BINCLUDE", "INCBIN", "CPU", ".CPU", "MAXMODE", "END",
   "PAGE", "NEWPAGE", "LISTING", "PRTINIT", "PRTEXIT", "MACRO", "ENDM"].any
    (fun d => strcaseeq name d)

/-- Does the token after a leading column-1 identifier make that identifier a
label per `parse_line`: an identifier `MACRO`/`EQU`/`SET`, or `=`. -/
def labelDirectiveNext (t : Tok) : Bool :=
  match t with
  | .ident s => strcaseeq s "MACRO" || strcaseeq s "EQU" || strcaseeq s "SET"
  | .equalsTok => true
  | _ => false

/-- The label test at the head of `parse_line` for a line starting with an
identifier: a following colon always makes it a label; otherwise only a
column-1 identifier followed by `MACRO`/`EQU`/`SET`/`=` is one, and anything
else is treated as a mnemonic. -/
def leadingIsLabel (col1 : Bool) (next : Option Tok) : Bool :=
  match next with
  | some .colon => true
  | some t => col1 && labelDirectiveNext t
  | none => false

/-- The rest of `parse_line` after the head: try `handle_directive`, define
the label at the current `pc`, then encode the instruction with the macro
fallback and the "unknown instruction or macro" diagnostic.  Directive lines,
`=` lines and lines with operand tokens leave the fragment (the label-
recognition theorems do not need them). -/
def parse_line_tail (as : AsmState) (lab : Option String) (mnemonic : String)
    (rest : List Tok) : AsmState × Bool :=
  if is_any_directive mnemonic then ({ as with model_gap := true }, false)
  else
    let as :=
      match lab with
      | some name => (symbol_define as name .label (as.pc : Int)).1
      | none => as
    match rest with
    | [] =>
      let (as, handled) := encode_instruction as mnemonic []
      if handled then (as, true)
      else if (symbol_lookup as mnemonic).any (fun s => s.type = .macroKind) then
        ({ as with model_gap := true }, false)
      else (errorLog as .unknownInstruction, false)
    | _ => ({ as with model_gap := true }, false)

/-- `parse_line` over tokens: blank lines succeed; a leading identifier is
classified by `leadingIsLabel`; a colon-labelled line with nothing after the
colon is a label-only line, defined at the current `pc`. -/
def parse_line_toks (as : AsmState) (line : SrcLine) : AsmState × Bool :=
  match line.toks with
  | [] => (as, true)
  | .ident name :: rest =>
    if leadingIsLabel line.col1 rest.head? then
      match rest with
      | .colon :: rest2 =>
        match rest2 with
        | [] => ((symbol_define as name .label (as.pc : Int)).1, true)
        | .ident m :: rest3 => parse_line_tail as (some name) m rest3
        | _ => ({ as with model_gap := true }, false)
      | _ =>
        -- the column-1 `NAME MACRO/EQU/SET/=` forms: directive handling
        ({ as with model_gap := true }, false)
    else
      parse_line_tail as none name rest
  | _ => ({ as with model_gap := true }, false)

/-! ## `macros.c` — expansion depth accounting

`macro_expand` guards with `if (macro_depth >= MAX_MACRO_DEPTH)`, but
`macro_depth` is a file-static initialised to 0 that *no statement in the
tree ever increments or decrements*; the recursive expansion (macro body line
→ `parse_line` → `macro_try_expand` → `macro_expand`) therefore re-enters
with the same depth.  The model makes the depth an explicit parameter that
the recursion passes through unchanged, exactly as the code does, plus a fuel
parameter standing for the finite C call stack.  Body lines are abstracted to
"plain" lines and macro invocations; `parse_line`'s return value is ignored
by the expansion loop, so a failed inner expansion lets the outer loop
continue. -/

/-- `MAX_MACRO_DEPTH` from the header. -/
def MAX_MACRO_DEPTH : Nat := 16

/-- One line of a macro body: a plain line, or an invocation of a macro. -/
inductive MLine
  | plain
  | call (name : String)
  deriving DecidableEq, Repr

/-- Outcome of running a body: whether "macro expansion too deep" was ever
reported, and whether the call stack (fuel) ran out — i.e. whether the C
program would still be recursing. -/
structure MRes where
  tooDeep : Bool
  fuelOut : Bool
  deriving DecidableEq, Repr

/-- The body loop of `macro_expand`: each line goes through `parse_line`,
whose result is ignored; a line that invokes a macro re-enters the expansion
through the `invoke` callback with the *unchanged* `macro_depth`, faithfully
to the source. -/
def macro_body_loop (invoke : Nat → String → MRes) :
    Nat → List MLine → MRes
  | _, [] => ⟨false, false⟩
  | depth, .plain :: rest => macro_body_loop invoke depth rest
  | depth, .call n :: rest =>
    let r1 := invoke depth n
    let r2 := macro_body_loop invoke depth rest
    ⟨r1.tooDeep || r2.tooDeep, r1.fuelOut || r2.fuelOut⟩

/-- `macro_expand`: the depth check happens at entry; an unknown name is the
caller's "unknown instruction" case; the fuel stands for the C call stack,
and its exhaustion means the C program is still recursing. -/
def macro_expand (env : String → Option (List MLine)) :
    Nat → Nat → String → MRes
  | 0, _, _ => ⟨false, true⟩
  | fuel + 1, depth, name =>
    if MAX_MACRO_DEPTH ≤ depth then ⟨true, false⟩
    else
      match env name with
      | none => ⟨false, false⟩
      | some body => macro_body_loop (macro_expand env fuel) depth body

/-- The smallest self-recursive macro: `M MACRO / M / ENDM`. -/
def selfRecEnv : String → Option (List MLine) :=
  fun n => if n = "M" then some [MLine.call "M"] else none

/-! ## `output.c` — event traces for the output-base invariant

The output buffer is touched by exactly two operations, `output_set_base`
(from `handle_org`) and `emit_byte` (and its word/long wrappers, which are
`emit_byte` chains); `pc` and `pass` assignments by the pass driver do not
touch it.  A run is abstracted as a list of those events. -/

/-- Events that reach the output module during a run. -/
inductive OutEv
  | setBase (b : Nat)      -- output_set_base(as, b), from handle_org
  | emitB (b : Nat)        -- emit_byte(as, b)
  | setPass (p : Nat)      -- the pass driver's `as->pass = …`
  | setPc (n : Nat)        -- `as->pc = …` (driver resets, handle_org)
  deriving DecidableEq, Repr

/-- Apply one event to the state. -/
def applyOutEv (as : AsmState) : OutEv → AsmState
  | .setBase b => output_set_base as b
  | .emitB b => emit_byte as b
  | .setPass p => { as with pass := p }
  | .setPc n => { as with pc := n % U32 }

/-- Apply a trace of events. -/
def applyOutEvs (as : AsmState) (es : List OutEv) : AsmState :=
  es.foldl applyOutEv as

/-- Specification-side reading of a trace: the base recorded by the last
`setBase` before the first byte actually written (a `emitB` while
`pass = 2`); after that first write the base is frozen. -/
def lastBaseBeforeFirstWrite : List OutEv → Nat → Nat → Nat
  | [], _, b => b
  | .setBase b' :: es, p, _ => lastBaseBeforeFirstWrite es p b'
  | .setPass p' :: es, _, b => lastBaseBeforeFirstWrite es p' b
  | .setPc _ :: es, p, b => lastBaseBeforeFirstWrite es p b
  | .emitB _ :: es, p, b => if p = 2 then b else lastBaseBeforeFirstWrite es p b

/-! ## The scenario programs

Tokenisation notes (lexer.c / parser.c):
* `ORG 100H` — column-1 identifier `ORG` followed by a number, so `ORG` is the
  mnemonic and `handle_directive` takes it; `100H` lexes to the number 0x100.
* `LD A, #5` — mnemonic `LD`; operand 1 is the register name `A`
  (`REG_A`, byte); operand 2 is `#` plus the literal 5, an immediate.
* `LOOP: NOP` — colon-suffixed label `LOOP`, mnemonic `NOP`, no operands.
* `JR LOOP` — mnemonic `JR`; `LOOP` is neither a register nor a condition
  name, so it parses as an immediate expression, the identifier `LOOP`. -/

/-- Scenario S2: `ORG 100H` / `LD A, #5`. -/
def progS2 : List Stmt :=
  [Stmt.org (Expr.num 0x100),
   Stmt.instr none "LD" [SrcOperand.reg .A .byte, SrcOperand.imm (Expr.num 5)]]

/-- Scenario S4: `ORG 0` / `LOOP: NOP` / `JR LOOP`. -/
def progS4 : List Stmt :=
  [Stmt.org (Expr.num 0),
   Stmt.instr (some "LOOP") "NOP" [],
   Stmt.instr none "JR" [SrcOperand.imm (Expr.ident "LOOP")]]

/-- A canonical pass-2 state (fresh output buffer, `pc = output_base = 0`)
used to observe the bytes an encoder emits. -/
def encState : AsmState := { pass := 2 }

/-- Emitting a list of byte-valued expressions (proof infrastructure for
reasoning about `emit_byte` chains). -/
def emitBytesI (as : AsmState) (xs : List Int) : AsmState := xs.foldl emitByteI as

/-- A direct operand with a small value that is marked constant but *not*
known (the claim requires the 8-bit form to need `value_known`). -/
def c1OpUnknownConst : Operand :=
  { mode := .direct, value := 5, value_known := false, is_constant := true, addr_size := 0 }

/-- A direct operand whose 64-bit value 2^32 exceeds 0xFF but whose 32-bit
truncation `(int)op->value` is 0. -/
def c1OpHuge : Operand :=
  { mode := .direct, value := 4294967296, value_known := true, is_constant := true,
    addr_size := 0 }

/-- The two operand shapes accepted by `encode_jr`: a leading condition
operand selects the condition code and makes the second operand the target;
otherwise the first operand is the target and the code defaults to `CC_T`
(8). -/
def JrShape (ops : List Operand) (cc : Int) (target : Operand) : Prop :=
  (ops = [target] ∧ cc = 8) ∨
  (∃ rest, ops = target :: rest ∧ rest ≠ [] ∧ target.mode ≠ .condition ∧ cc = 8) ∨
  (∃ c rest, ops = c :: target :: rest ∧ c.mode = .condition ∧ cc = c.value)

/-! ## The sizing-loop trajectory -/

/-- The driver state before sizing iteration `n+1` (`iterState … 0` is the
initial state). -/
def iterState {σ : Type} (step : σ → σ × Nat × Bool) (s : σ) : Nat → σ
  | 0 => s
  | n + 1 => (step (iterState step s n)).1

/-- The final `pc` of sizing iteration `n` (for `n ≥ 1`). -/
def iterPc {σ : Type} (step : σ → σ × Nat × Bool) (s : σ) (n : Nat) : Nat :=
  (step (iterState step s (n - 1))).2.1

/-- Whether sizing iteration `n` recorded errors (for `n ≥ 1`). -/
def iterErr {σ : Type} (step : σ → σ × Nat × Bool) (s : σ) (n : Nat) : Bool :=
  (step (iterState step s (n - 1))).2.2

/-! ## Emission lemmas -/

theorem listSet_append_len (l : List Nat) (b0 b : Nat) :
    (l ++ [b0]).set l.length b = l ++ [b] := by
  induction l with
  | nil => rfl
  | cons a t ih => simp [ih]

/-- During pass 2, an `emit_byte` at the write position `pc - output_base =
output.length` appends the byte and advances `pc`. -/
theorem emit_byte_append (as : AsmState) (b : Nat) (h2 : as.pass = 2)
    (hbase : as.output_base ≤ as.pc)
    (hlen : as.pc - as.output_base = as.output.length)
    (hlt : as.pc + 1 < U32) :
    emit_byte as b = { as with output := as.output ++ [b], pc := as.pc + 1 } := by
  unfold emit_byte
  rw [if_neg (by simp [h2])]
  have hoff : (as.pc + U32 - as.output_base) % U32 = as.output.length := by
    have h1 : as.pc + U32 - as.output_base = (as.pc - as.output_base) + U32 := by omega
    rw [h1, Nat.add_mod_right, hlen.symm, Nat.mod_eq_of_lt (by omega)]
  simp only [hoff, le_refl, if_pos, Nat.add_sub_cancel_left]
  rw [show (List.replicate 1 0 : List Nat) = [0] from rfl]
  rw [listSet_append_len, Nat.mod_eq_of_lt hlt]

/-- Outside pass 2 (i.e. during sizing), `emit_byte` only advances `pc`. -/
theorem emit_byte_sizing (as : AsmState) (b : Nat) (h : as.pass ≠ 2) :
    emit_byte as b = { as with pc := (as.pc + 1) % U32 } := by
  unfold emit_byte
  rw [if_pos h]

/-- `emitByteI` at the sequential write position appends the truncated byte. -/
theorem emitByteI_append (as : AsmState) (x : Int) (h2 : as.pass = 2)
    (hbase : as.output_base ≤ as.pc)
    (hlen : as.pc - as.output_base = as.output.length)
    (hlt : as.pc + 1 < U32) :
    emitByteI as x = { as with output := as.output ++ [toUInt8n x], pc := as.pc + 1 } :=
  emit_byte_append as (toUInt8n x) h2 hbase hlen hlt

/-- `emitWordI` at the sequential write position appends the two little-endian
bytes of the truncated word. -/
theorem emitWordI_append (as : AsmState) (x : Int) (h2 : as.pass = 2)
    (hbase : as.output_base ≤ as.pc)
    (hlen : as.pc - as.output_base = as.output.length)
    (hlt : as.pc + 2 < U32) :
    emitWordI as x =
      { as with output := as.output ++ [toUInt16n x % 256, toUInt16n x / 256 % 256],
                pc := as.pc + 2 } := by
  unfold emitWordI emit_word
  rw [emit_byte_append as _ h2 hbase hlen (by omega)]
  rw [emit_byte_append
    { as with output := as.output ++ [toUInt16n x % 256], pc := as.pc + 1 }
    (toUInt16n x / 256 % 256) (by simpa using h2) (by simp; omega) (by simp; omega)
    (by simp; omega)]
  simp


theorem emitBytesI_append : ∀ (xs : List Int) (as : AsmState), as.pass = 2 →
    as.output_base ≤ as.pc → as.pc - as.output_base = as.output.length →
    as.pc + xs.length < U32 →
    emitBytesI as xs =
      { as with output := as.output ++ xs.map toUInt8n, pc := as.pc + xs.length } := by
  intro xs
  induction xs with
  | nil => intro as h2 _ _ _; simp [emitBytesI]
  | cons x xs ih =>
    intro as h2 hbase hlen hlt
    show emitBytesI (emitByteI as x) xs = _
    rw [emitByteI_append as x h2 hbase hlen (by simp at hlt; omega)]
    rw [ih _ (by simp [h2]) (by simp; omega) (by simp; omega) (by simp at hlt ⊢; omega)]
    simp
    omega

/-- Two bytes emitted from the canonical pass-2 state. -/
theorem encState_out2 (x y : Int) :
    (emitByteI (emitByteI encState x) y).output = [toUInt8n x, toUInt8n y] := by
  rw [show emitByteI (emitByteI encState x) y = emitBytesI encState [x, y] from rfl]
  rw [emitBytesI_append [x, y] encState rfl (by decide) (by decide)
    (by norm_num [encState, U32])]
  simp [encState]

/-- A byte then a 16-bit word emitted from the canonical pass-2 state. -/
theorem encState_out3w (x y : Int) :
    (emitWordI (emitByteI encState x) y).output =
      [toUInt8n x, toUInt16n y % 256, toUInt16n y / 256 % 256] := by
  rw [emitByteI_append encState x rfl (by decide) (by decide) (by decide)]
  rw [emitWordI_append
    { encState with output := encState.output ++ [toUInt8n x], pc := encState.pc + 1 }
    y rfl (by simp [encState]) (by simp [encState]) (by norm_num [encState, U32])]
  simp [encState]

/-- Four bytes emitted from the canonical pass-2 state. -/
theorem encState_out4 (x a b c : Int) :
    (emitByteI (emitByteI (emitByteI (emitByteI encState x) a) b) c).output =
      [toUInt8n x, toUInt8n a, toUInt8n b, toUInt8n c] := by
  rw [show emitByteI (emitByteI (emitByteI (emitByteI encState x) a) b) c =
      emitBytesI encState [x, a, b, c] from rfl]
  rw [emitBytesI_append [x, a, b, c] encState rfl (by decide) (by decide)
    (by norm_num [encState, U32])]
  simp [encState]

/-! ## Branch-wise outputs of the direct-address emitters -/

theorem mem_direct_out_8 (op : Operand) (hmode : op.mode = .direct)
    (hauto : op.addr_size = 0)
    (h1 : toInt32 op.value ≤ 0xFF ∧ op.is_constant = true) :
    (emit_mem_operand encState op).1.output = [0x38, toUInt8n (toInt32 op.value)] := by
  unfold emit_mem_operand
  rw [hmode]
  simp only [hauto, if_pos, if_true]
  rw [if_pos h1]
  rw [show emitByteI (emitByteI encState 0x38) (toInt32 op.value) =
      emitBytesI encState [0x38, toInt32 op.value] from rfl]
  rw [emitBytesI_append [0x38, toInt32 op.value] encState rfl (by decide) (by decide)
    (by norm_num [encState, U32])]
  simp [encState, toUInt8n]

theorem mem_direct_out_16 (op : Operand) (hmode : op.mode = .direct)
    (hauto : op.addr_size = 0)
    (h1 : ¬(toInt32 op.value ≤ 0xFF ∧ op.is_constant = true))
    (h2 : toInt32 op.value ≤ 0xFFFF) :
    (emit_mem_operand encState op).1.output =
      [0x39, toUInt16n (toInt32 op.value) % 256, toUInt16n (toInt32 op.value) / 256 % 256] := by
  unfold emit_mem_operand
  rw [hmode]
  simp only [hauto, if_pos, if_true]
  rw [if_neg h1, if_pos h2]
  norm_num
  rw [encState_out3w 0x39 (toInt32 op.value)]
  simp [toUInt8n]

theorem mem_direct_out_24 (op : Operand) (hmode : op.mode = .direct)
    (hauto : op.addr_size = 0)
    (h1 : ¬(toInt32 op.value ≤ 0xFF ∧ op.is_constant = true))
    (h2 : ¬toInt32 op.value ≤ 0xFFFF) :
    (emit_mem_operand encState op).1.output =
      [0x3A, toUInt8n ((toInt32 op.value).land 255),
        toUInt8n ((asr (toInt32 op.value) 8).land 255),
        toUInt8n ((asr (toInt32 op.value) 16).land 255)] := by
  unfold emit_mem_operand
  rw [hmode]
  simp only [hauto, if_pos, if_true]
  rw [if_neg h1]
  rw [if_neg (by simp [h2] : ¬((if toInt32 op.value ≤ 65535 then (16 : Int) else 24) = 8))]
  rw [if_neg (by simp [h2] : ¬((if toInt32 op.value ≤ 65535 then (16 : Int) else 24) = 16))]
  rw [encState_out4 0x3A ((toInt32 op.value).land 255) ((asr (toInt32 op.value) 8).land 255)
    ((asr (toInt32 op.value) 16).land 255)]
  simp [toUInt8n]

theorem direct_compact_len_8 (op : Operand) (dsz : OperandSize)
    (hauto : op.addr_size = 0)
    (h1 : toInt32 op.value ≤ 0xFF ∧ op.is_constant = true) :
    (emit_direct_mem_operand encState op dsz).1.output.length = 2 := by
  unfold emit_direct_mem_operand
  simp only [hauto, if_pos, if_true]
  rw [if_pos h1]
  norm_num
  rw [show ∀ b : Int, emitByteI (emitByteI encState b) (toInt32 op.value) =
      emitBytesI encState [b, toInt32 op.value] from fun _ => rfl]
  rw [emitBytesI_append _ encState rfl (by decide) (by decide) (by norm_num [encState, U32])]
  simp [encState]

theorem direct_compact_len_16 (op : Operand) (dsz : OperandSize)
    (hauto : op.addr_size = 0)
    (h1 : ¬(toInt32 op.value ≤ 0xFF ∧ op.is_constant = true))
    (h2 : toInt32 op.value ≤ 0xFFFF) :
    (emit_direct_mem_operand encState op dsz).1.output.length = 3 := by
  unfold emit_direct_mem_operand
  simp only [hauto, if_pos, if_true]
  rw [if_neg h1, if_pos h2]
  norm_num
  rw [encState_out3w _ (toInt32 op.value)]
  simp

theorem direct_compact_len_24 (op : Operand) (dsz : OperandSize)
    (hauto : op.addr_size = 0)
    (h1 : ¬(toInt32 op.value ≤ 0xFF ∧ op.is_constant = true))
    (h2 : ¬toInt32 op.value ≤ 0xFFFF) :
    (emit_direct_mem_operand encState op dsz).1.output.length = 4 := by
  unfold emit_direct_mem_operand
  simp only [hauto, if_pos, if_true]
  rw [if_neg h1]
  rw [if_neg (by simp [h2] : ¬((if toInt32 op.value ≤ 65535 then (16 : Int) else 24) = 8))]
  rw [if_neg (by simp [h2] : ¬((if toInt32 op.value ≤ 65535 then (16 : Int) else 24) = 16))]
  rw [show ∀ b : Int, emitByteI (emitByteI (emitByteI (emitByteI encState b)
        ((toInt32 op.value).land 255)) ((asr (toInt32 op.value) 8).land 255))
        ((asr (toInt32 op.value) 16).land 255) =
      emitBytesI encState [b, (toInt32 op.value).land 255, (asr (toInt32 op.value) 8).land 255,
        (asr (toInt32 op.value) 16).land 255] from fun _ => rfl]
  rw [emitBytesI_append _ encState rfl (by decide) (by decide) (by norm_num [encState, U32])]
  simp [encState]

/-! ## Claim theorems -/


/-- C1 counterexample: the claimed characterisation — 8-bit direct form
exactly when `value_known ∧ is_constant ∧ value ≤ 0xFF` — fails on two
concrete operands: one with `value_known = false` yet encoded 8-bit (the code
never consults `value_known`), and one with value 2^32 > 0xFF yet encoded
8-bit (the code compares the value truncated to a 32-bit `int`). -/
theorem C1_counterexample :
    ¬(((emit_mem_operand encState c1OpUnknownConst).1.output.head? = some 0x38) ↔
      (c1OpUnknownConst.value_known = true ∧ c1OpUnknownConst.is_constant = true ∧
        c1OpUnknownConst.value ≤ 0xFF)) ∧
    ¬(((emit_mem_operand encState c1OpHuge).1.output.head? = some 0x38) ↔
      (c1OpHuge.value_known = true ∧ c1OpHuge.is_constant = true ∧
        c1OpHuge.value ≤ 0xFF)) := by decide

/-- C1 (amended): for every Direct operand with `addr_size = 0`, both
`emit_mem_operand` and `emit_direct_mem_operand` select the 8-bit form
exactly when `is_constant` holds and the value truncated to a signed 32-bit
`int` is ≤ 0xFF (`value_known` is not consulted); otherwise the 16-bit form
exactly when the truncated value is ≤ 0xFFFF, and the 24-bit form otherwise.
The selected form is observed through the emitted bytes: the standalone
prefix byte 0x38/0x39/0x3A, and the 2/3/4-byte total of the compact form. -/
theorem C1_direct_width_selection (op : Operand) (dsz : OperandSize)
    (hmode : op.mode = .direct) (hauto : op.addr_size = 0) :
    (((emit_mem_operand encState op).1.output.head? = some 0x38) ↔
      (op.is_constant = true ∧ toInt32 op.value ≤ 0xFF)) ∧
    (((emit_mem_operand encState op).1.output.head? = some 0x39) ↔
      (¬(op.is_constant = true ∧ toInt32 op.value ≤ 0xFF) ∧ toInt32 op.value ≤ 0xFFFF)) ∧
    (((emit_mem_operand encState op).1.output.head? = some 0x3A) ↔
      (¬(op.is_constant = true ∧ toInt32 op.value ≤ 0xFF) ∧ ¬toInt32 op.value ≤ 0xFFFF)) ∧
    (((emit_direct_mem_operand encState op dsz).1.output.length = 2) ↔
      (op.is_constant = true ∧ toInt32 op.value ≤ 0xFF)) ∧
    (((emit_direct_mem_operand encState op dsz).1.output.length = 3) ↔
      (¬(op.is_constant = true ∧ toInt32 op.value ≤ 0xFF) ∧ toInt32 op.value ≤ 0xFFFF)) ∧
    (((emit_direct_mem_operand encState op dsz).1.output.length = 4) ↔
      (¬(op.is_constant = true ∧ toInt32 op.value ≤ 0xFF) ∧ ¬toInt32 op.value ≤ 0xFFFF)) := by
  by_cases hc : op.is_constant = true <;>
    by_cases hv8 : toInt32 op.value ≤ 0xFF <;>
    by_cases hv16 : toInt32 op.value ≤ 0xFFFF <;>
    first
      | omega
      | (rw [mem_direct_out_8 op hmode hauto ⟨hv8, hc⟩,
            direct_compact_len_8 op dsz hauto ⟨hv8, hc⟩]
         simp [hc, hv8, hv16])
      | (rw [mem_direct_out_16 op hmode hauto (by tauto) hv16,
            direct_compact_len_16 op dsz hauto (by tauto) hv16]
         simp [hc, hv8, hv16])
      | (rw [mem_direct_out_24 op hmode hauto (by tauto) hv16,
            direct_compact_len_24 op dsz hauto (by tauto) hv16]
         simp [hc, hv8, hv16])

/-- C1 witness: a constant direct operand with value 0x80 takes the 8-bit
form, and a label-valued (non-constant) operand with the same value takes the
16-bit form. -/
theorem C1_direct_width_selection_witness :
    ((emit_mem_operand encState
        { mode := .direct, value := 0x80, value_known := true, is_constant := true,
          addr_size := 0 }).1.output.head? = some 0x38) ∧
    ((emit_mem_operand encState
        { mode := .direct, value := 0x80, value_known := true, is_constant := false,
          addr_size := 0 }).1.output.head? = some 0x39) :=
  ⟨((C1_direct_width_selection _ .byte rfl rfl).1).mpr (by decide),
   ((C1_direct_width_selection _ .byte rfl rfl).2.1).mpr (by decide)⟩


theorem encode_jr_shape (as : AsmState) (ops : List Operand) (cc : Int) (target : Operand)
    (h : JrShape ops cc target) : encode_jr as ops = encode_jr_at as cc target := by
  rcases h with ⟨h, hcc⟩ | ⟨rest, h, hne, hmode, hcc⟩ | ⟨c, rest, h, hmode, hcc⟩
  · subst h hcc; rfl
  · subst h hcc
    cases rest with
    | nil => exact absurd rfl hne
    | cons r rs => simp [encode_jr, hmode]
  · subst h hcc
    simp [encode_jr, hmode]

/-- C2: for every JR instruction with an immediate target (in either operand
shape), the encoder emits exactly 2 bytes — `0x60+cc` then the displacement
`target − (pc+2)` — advancing `pc` by 2 in *both* passes; the
BranchOutOfRange diagnostic is recorded exactly when the pass is the Emit
pass (pass 2) and the displacement lies outside [-128, 127], and never
during a sizing iteration (pass 1).  The state hypotheses say the encoder
writes at the buffer's sequential position and `pc` does not wrap. -/
theorem C2_jr_two_bytes_range_error_emit_only (as : AsmState) (ops : List Operand)
    (cc : Int) (target : Operand)
    (hshape : JrShape ops cc target)
    (himm : target.mode = .immediate)
    (hbase : as.output_base ≤ as.pc)
    (hlen : as.pc - as.output_base = as.output.length)
    (hlt : as.pc + 2 < U32) :
    (encode_jr as ops).2 = true ∧
    (encode_jr as ops).1.pc = as.pc + 2 ∧
    (as.pass = 1 →
      (encode_jr as ops).1.output = as.output ∧
      (encode_jr as ops).1.errlog = as.errlog) ∧
    (as.pass = 2 →
      (encode_jr as ops).1.output =
        as.output ++ [toUInt8n (0x60 + get_cc_code cc),
          toUInt8n (target.value - ((as.pc + 2 : Nat) : Int))] ∧
      (encode_jr as ops).1.errlog =
        (if target.value - ((as.pc + 2 : Nat) : Int) < -128 ∨
            127 < target.value - ((as.pc + 2 : Nat) : Int) then
          as.errlog ++ [AsmErr.jrOutOfRange]
        else as.errlog)) := by
  rw [encode_jr_shape as ops cc target hshape]
  unfold encode_jr_at
  rw [if_neg (by simp [himm])]
  simp only []
  by_cases hp : as.pass = 2
  · rw [show emitByteI (emitByteI as (0x60 + get_cc_code cc))
          (target.value - (((as.pc + 2) % U32 : Nat) : Int)) =
        emitBytesI as [0x60 + get_cc_code cc,
          target.value - (((as.pc + 2) % U32 : Nat) : Int)] from rfl]
    rw [emitBytesI_append _ as hp hbase hlen (by simp; omega)]
    rw [Nat.mod_eq_of_lt hlt]
    refine ⟨trivial, ?_, ?_, fun _ => ⟨?_, ?_⟩⟩
    · split <;> simp [errorLog]
    · intro h1; exact absurd (h1.symm.trans hp) (by decide)
    · split <;> simp [errorLog]
    · split
      next h =>
        split
        next => simp [errorLog]
        next hr => exact absurd h.2 hr
      next h =>
        split
        next hr => exact absurd ⟨by simp [hp], hr⟩ h
        next => rfl
  · simp only [emitByteI]
    rw [emit_byte_sizing as _ hp]
    rw [emit_byte_sizing { as with pc := (as.pc + 1) % U32 } _ (by simpa using hp)]
    rw [show ((as.pc + 1) % U32) = as.pc + 1 from Nat.mod_eq_of_lt (by omega)]
    rw [show ((as.pc + 1 + 1) % U32) = as.pc + 2 from Nat.mod_eq_of_lt (by omega)]
    refine ⟨trivial, ?_, ?_, fun h2 => absurd h2 hp⟩
    · split <;> rfl
    · intro h1
      rw [if_neg (by simp [h1])]
      exact ⟨rfl, rfl⟩

/-- C2 witness: `JR 0x300` at `pc = 0x100` in the Emit pass — displacement
+510 is out of range, the two bytes are still emitted, and the error is
recorded; the same instruction in a sizing pass emits no bytes into the
buffer and records nothing. -/
theorem C2_jr_witness :
    (encode_jr { pass := 2, pc := 0x100, output_base := 0x100 }
        [{ mode := .immediate, value := 0x300 }]).1.output =
      [0x68, toUInt8n (0x300 - 0x102)] ∧
    (encode_jr { pass := 2, pc := 0x100, output_base := 0x100 }
        [{ mode := .immediate, value := 0x300 }]).1.errlog = [AsmErr.jrOutOfRange] ∧
    (encode_jr { pass := 1, pc := 0x100, output_base := 0x100 }
        [{ mode := .immediate, value := 0x300 }]).1.errlog = [] := by
  have h2 := C2_jr_two_bytes_range_error_emit_only
    { pass := 2, pc := 0x100, output_base := 0x100 } _ 8
    { mode := .immediate, value := 0x300 } (Or.inl ⟨rfl, rfl⟩) rfl
    (by decide) (by decide) (by decide)
  have h1 := C2_jr_two_bytes_range_error_emit_only
    { pass := 1, pc := 0x100, output_base := 0x100 } _ 8
    { mode := .immediate, value := 0x300 } (Or.inl ⟨rfl, rfl⟩) rfl
    (by decide) (by decide) (by decide)
  refine ⟨?_, ?_, ?_⟩
  · rw [(h2.2.2.2 rfl).1]; decide
  · rw [(h2.2.2.2 rfl).2]; decide
  · rw [(h1.2.2.1 rfl).2]

/-- C5: the claim says an expansion nested deeper than 16 levels is rejected
with "macro expansion too deep"; in the code `macro_depth` is never
incremented, so for the self-recursive macro `M MACRO / M / ENDM` invoking
`M` never reports the too-deep diagnostic and never completes, for any
amount of call stack (`fuel`) — the recursion is unbounded.  The second
conjunct shows the guard itself is live: an entry that *did* arrive at depth
`MAX_MACRO_DEPTH` would report it. -/
theorem C5_macro_depth_never_advances :
    (∀ fuel : Nat, macro_expand selfRecEnv fuel 0 "M" = ⟨false, true⟩) ∧
    macro_expand selfRecEnv 1 MAX_MACRO_DEPTH "M" = ⟨true, false⟩ := by
  constructor
  · intro fuel
    induction fuel with
    | zero => rfl
    | succ n ih => simp [macro_expand, macro_body_loop, selfRecEnv, MAX_MACRO_DEPTH, ih]
  · decide

/-- C7 counterexample: the program `ORG 0` / `LOOP: NOP` / `JR LOOP` does not
produce the output bytes 00 68 FF claimed by the spec. -/
theorem C7_s4_counterexample :
    (assembleProgram progS4).state.output ≠ [0x00, 0x68, 0xFF] := by decide

/-- C7 (amended): under this tree S4 does not assemble — sizing iteration 2
reports a spurious Redefinition of `LOOP` (`symbol_define` rejects any
re-definition of a defined non-Set symbol while `pass == 1`) and the driver
aborts before the emit pass, leaving the output empty; the emit pass itself,
applied to the stabilised post-sizing state, produces 00 68 FD — `JR T` =
0x68 with displacement −3 = LOOP − (pc+2) — not 00 68 FF. -/
theorem C7_s4_assembles_to_68FD :
    (assembleProgram progS4).success = false ∧
    (assembleProgram progS4).sizingAborted = true ∧
    (assembleProgram progS4).iterations = 2 ∧
    (assembleProgram progS4).state.output = [] ∧
    (assembleProgram progS4).state.errlog = [AsmErr.redefinition] ∧
    (assembleProgram progS4).state.model_gap = false ∧
    (emit_step progS4 (sizing_step progS4 {}).1).1.output = [0x00, 0x68, 0xFD] ∧
    (emit_step progS4 (sizing_step progS4 {}).1).1.model_gap = false ∧
    (emit_step progS4 (sizing_step progS4 {}).1).2 = true := by decide

/-- C8 counterexample: `ORG 100H` / `LD A, #5` does not assemble to the bytes
25 05 claimed by the spec. -/
theorem C8_s2_counterexample :
    (assembleProgram progS2).state.output ≠ [0x25, 0x05] := by decide

/-- C8 (amended): S2 assembles successfully to the two bytes 21 05 — the
`LD r, #imm` short form is `0x20 + code` with 8-bit register code A = 1,
giving opcode 0x21 (not 0x25) — at output base 0x100. -/
theorem C8_s2_assembles_to_2105 :
    (assembleProgram progS2).state.output = [0x21, 0x05] ∧
    (assembleProgram progS2).state.output_base = 0x100 ∧
    (assembleProgram progS2).success = true ∧
    (assembleProgram progS2).state.model_gap = false ∧
    (assembleProgram progS2).iterations = 2 := by decide

/-- C9: whenever the right operand of `/` or `%` evaluates to 0 (after the
left operand evaluated successfully), the evaluator reports the DivByZero
diagnostic and `expr_parse` fails, producing no value. -/
theorem C9_div_mod_by_zero (as as1 as2 : AsmState) (op : BinOp) (a b : Expr)
    (va : Int) (ka ca kb cb : Bool)
    (hop : op = BinOp.div ∨ op = BinOp.mod)
    (ha : evalExpr as a = (as1, some (va, ka, ca)))
    (hb : evalExpr as1 b = (as2, some (0, kb, cb))) :
    expr_parse as (Expr.bin op a b) = (errorLog as2 AsmErr.divByZero, none) ∧
    (errorLog as2 AsmErr.divByZero).errors = true ∧
    (errorLog as2 AsmErr.divByZero).errlog = as2.errlog ++ [AsmErr.divByZero] := by
  refine ⟨?_, rfl, rfl⟩
  unfold expr_parse
  simp only [evalExpr, ha, hb]
  simp [hop]

/-- C9 witness: the expression `1 / 0` at the fresh state. -/
theorem C9_div_mod_by_zero_witness :
    expr_parse {} (Expr.bin BinOp.div (Expr.num 1) (Expr.num 0)) =
      (errorLog {} AsmErr.divByZero, none) :=
  (C9_div_mod_by_zero {} {} {} BinOp.div (Expr.num 1) (Expr.num 0) 1
    true true true true (Or.inl rfl) rfl rfl).1

/-- One output event neither changes `output_base` nor empties the buffer
once a byte has been written. -/
theorem applyOutEv_base_frozen (as : AsmState) (ev : OutEv)
    (h : 0 < as.output.length) :
    (applyOutEv as ev).output_base = as.output_base ∧
    0 < (applyOutEv as ev).output.length := by
  cases ev with
  | setBase b =>
    show (output_set_base as b).output_base = as.output_base ∧
      0 < (output_set_base as b).output.length
    unfold output_set_base
    rw [if_neg (by omega)]
    exact ⟨rfl, h⟩
  | emitB b =>
    show (emit_byte as b).output_base = as.output_base ∧
      0 < (emit_byte as b).output.length
    unfold emit_byte
    by_cases hp : as.pass = 2
    · rw [if_neg (by simp [hp])]
      refine ⟨rfl, ?_⟩
      dsimp only
      split
      · simp
        omega
      · simpa using h
    · rw [if_pos hp]
      exact ⟨rfl, h⟩
  | setPass p => exact ⟨rfl, h⟩
  | setPc n => exact ⟨rfl, h⟩

/-- A trace of output events never changes `output_base` once a byte has been
written. -/
theorem applyOutEvs_base_frozen : ∀ (es : List OutEv) (as : AsmState),
    0 < as.output.length →
    (applyOutEvs as es).output_base = as.output_base ∧
    0 < (applyOutEvs as es).output.length := by
  intro es
  induction es with
  | nil => exact fun as h => ⟨rfl, h⟩
  | cons ev es ih =>
    intro as h
    have h1 := applyOutEv_base_frozen as ev h
    have h2 := ih (applyOutEv as ev) h1.2
    exact ⟨h2.1.trans h1.1, h2.2⟩

/-- A pass-2 `emit_byte` from the empty buffer leaves the base unchanged and
makes the buffer non-empty. -/
theorem emit_byte_first_write (as : AsmState) (b : Nat) (h2 : as.pass = 2)
    (h0 : as.output = []) :
    (emit_byte as b).output_base = as.output_base ∧
    0 < (emit_byte as b).output.length := by
  unfold emit_byte
  rw [if_neg (by simp [h2])]
  refine ⟨rfl, ?_⟩
  dsimp only
  rw [if_pos (by simp [h0])]
  simp
  omega

/-- C10: (i) once at least one byte has been written to the output buffer,
no further event — `output_set_base` from an ORG included — changes
`output_base`; (ii) consequently, from a state with an empty buffer,
`output_base` at the end of any run equals the value of the last
`output_set_base` (ORG) executed before the first byte written in pass 2 —
not necessarily the first one. -/
theorem C10_output_base_last_org_before_first_byte :
    (∀ (as : AsmState) (es : List OutEv), 0 < as.output.length →
      (applyOutEvs as es).output_base = as.output_base) ∧
    (∀ (as : AsmState) (es : List OutEv), as.output = [] →
      (applyOutEvs as es).output_base =
        lastBaseBeforeFirstWrite es as.pass as.output_base) := by
  constructor
  · exact fun as es h => (applyOutEvs_base_frozen es as h).1
  · intro as es
    induction es generalizing as with
    | nil => intro _; rfl
    | cons ev es ih =>
      intro h0
      cases ev with
      | setBase b =>
        show (applyOutEvs (output_set_base as b) es).output_base = _
        unfold output_set_base
        rw [if_pos (by simp [h0])]
        exact ih { as with output_base := b } h0
      | emitB b =>
        by_cases hp : as.pass = 2
        · show (applyOutEvs (emit_byte as b) es).output_base = _
          have h1 := emit_byte_first_write as b hp h0
          have h2 := applyOutEvs_base_frozen es (emit_byte as b) h1.2
          rw [h2.1, h1.1]
          unfold lastBaseBeforeFirstWrite
          rw [if_pos hp]
        · show (applyOutEvs (emit_byte as b) es).output_base = _
          rw [emit_byte_sizing as b hp]
          rw [show lastBaseBeforeFirstWrite (OutEv.emitB b :: es) as.pass as.output_base =
              lastBaseBeforeFirstWrite es as.pass as.output_base from by
            show (if as.pass = 2 then as.output_base
              else lastBaseBeforeFirstWrite es as.pass as.output_base) =
              lastBaseBeforeFirstWrite es as.pass as.output_base
            rw [if_neg hp]]
          exact ih { as with pc := (as.pc + 1) % U32 } h0
      | setPass p =>
        exact ih { as with pass := p } h0
      | setPc n =>
        exact ih { as with pc := n % U32 } h0

/-- C10 witness: a trace that sets the base twice before the first written
byte and once after — the final base is the last ORG before the write (7),
and a base change attempted on a non-empty buffer is a no-op. -/
theorem C10_output_base_witness :
    (applyOutEvs {}
      [OutEv.setBase 5, OutEv.setPass 2, OutEv.setBase 7, OutEv.emitB 1,
        OutEv.setBase 9]).output_base =
      lastBaseBeforeFirstWrite
        [OutEv.setBase 5, OutEv.setPass 2, OutEv.setBase 7, OutEv.emitB 1,
          OutEv.setBase 9] 1 0 ∧
    (applyOutEvs { output := [0x41] } [OutEv.setBase 9]).output_base = 0 :=
  ⟨C10_output_base_last_org_before_first_byte.2 {}
      [OutEv.setBase 5, OutEv.setPass 2, OutEv.setBase 7, OutEv.emitB 1,
        OutEv.setBase 9] rfl,
   C10_output_base_last_org_before_first_byte.1 { output := [0x41] }
      [OutEv.setBase 9] (by decide)⟩

/-- A positive `find?` stays on the replaced element of `replaceSym`. -/
theorem find_replaceSym (l : List Symbol) (name : String) (ex upd : Symbol)
    (hfind : l.find? (fun s => strcaseeq s.name name) = some ex)
    (hupd : strcaseeq upd.name name = true) :
    (replaceSym l name upd).find? (fun s => strcaseeq s.name name) = some upd := by
  induction l with
  | nil => simp [List.find?] at hfind
  | cons a t ih =>
    unfold replaceSym
    by_cases ha : strcaseeq a.name name = true
    · rw [if_pos ha]
      simp [List.find?, hupd]
    · rw [if_neg ha]
      have ha' : strcaseeq a.name name = false := by simpa using ha
      simp only [List.find?, ha'] at hfind ⊢
      exact ih hfind

/-- C4 counterexample: (i) with the one-line program `L: NOP` (`L` a Label,
kinds agreeing in every re-definition), sizing iteration 1 succeeds but
sizing iteration 2 records a Redefinition error — the claim says later
sizing iterations update the value in place; (ii) a duplicate definition of
`L` *within* sizing iteration 1, kinds agreeing (Label = Label), also
records a Redefinition error — the claim says the error occurs only when the
kinds disagree. -/
theorem C4_counterexample :
    ((sizing_step [Stmt.instr (some "L") "NOP" []]
        (sizing_step [Stmt.instr (some "L") "NOP" []] {}).1).2.2 = true) ∧
    ((sizing_step [Stmt.instr (some "L") "NOP" []]
        (sizing_step [Stmt.instr (some "L") "NOP" []] {}).1).1.errlog =
      [AsmErr.redefinition]) ∧
    ((sizing_step [Stmt.instr (some "L") "NOP" []] {}).2.2 = false) ∧
    ((sizing_step [Stmt.instr (some "L") "NOP" [],
        Stmt.instr (some "L") "NOP" []] {}).1.errlog = [AsmErr.redefinition]) := by
  decide

/-- C4 (amended): for a name already present in the table, `symbol_define`
(i) reports Redefinition and leaves the table untouched whenever the existing
symbol is defined, neither the existing nor the new kind is `Set`, and
`pass == 1` — i.e. in *every* sizing iteration, whether or not the kinds
agree; (ii) outside pass 1 it updates the value in place without an error;
(iii) when either side's kind is `Set` it re-binds value and kind without an
error, in any pass. -/
theorem C4_symbol_define_policy (as : AsmState) (name : String) (ty : SymbolType)
    (v : Int) (ex : Symbol) (hex : symbol_lookup as name = some ex) :
    (ex.type ≠ .set → ty ≠ .set → ex.defined = true → as.pass = 1 →
      symbol_define as name ty v = (errorLog as AsmErr.redefinition, none)) ∧
    (ex.type ≠ .set → ty ≠ .set → as.pass ≠ 1 →
      (symbol_define as name ty v).1.errlog = as.errlog ∧
      symbol_lookup (symbol_define as name ty v).1 name =
        some { ex with value := v, defined := true }) ∧
    (ex.type = .set ∨ ty = .set →
      (symbol_define as name ty v).1.errlog = as.errlog ∧
      symbol_lookup (symbol_define as name ty v).1 name =
        some { ex with value := v, defined := true, type := ty }) := by
  have hpred : strcaseeq ex.name name = true := by
    have := List.find?_some hex
    simpa using this
  refine ⟨?_, ?_, ?_⟩
  · intro h1 h2 h3 h4
    simp only [symbol_define, hex]
    rw [if_neg (by rintro (h | h) <;> contradiction)]
    rw [if_pos (by simp [h3, h4])]
  · intro h1 h2 h3
    simp only [symbol_define, hex]
    rw [if_neg (by rintro (h | h) <;> contradiction)]
    rw [if_neg (by rintro ⟨_, h⟩; exact h3 h)]
    exact ⟨rfl, find_replaceSym as.symbols name ex _ hex hpred⟩
  · intro hset
    simp only [symbol_define, hex]
    rw [if_pos hset]
    exact ⟨rfl, find_replaceSym as.symbols name ex _ hex hpred⟩

/-- C4 witness: with `L` defined as a Label, a pass-1 redefinition errors, a
pass-2 redefinition updates in place, and a `SET` re-binding succeeds in
pass 1. -/
theorem C4_symbol_define_policy_witness :
    symbol_define { pass := 1, symbols := [⟨"L", .label, 0, true, false⟩] } "L" .label 3 =
      (errorLog { pass := 1, symbols := [⟨"L", .label, 0, true, false⟩] }
        AsmErr.redefinition, none) ∧
    symbol_lookup (symbol_define { pass := 2, symbols := [⟨"L", .label, 0, true, false⟩] }
        "L" .label 3).1 "L" = some ⟨"L", .label, 3, true, false⟩ ∧
    symbol_lookup (symbol_define { pass := 1, symbols := [⟨"L", .label, 0, true, false⟩] }
        "L" .set 3).1 "L" = some ⟨"L", .set, 3, true, false⟩ :=
  ⟨(C4_symbol_define_policy _ "L" .label 3 ⟨"L", .label, 0, true, false⟩
      (by decide)).1 (by decide) (by decide) rfl rfl,
   ((C4_symbol_define_policy _ "L" .label 3 ⟨"L", .label, 0, true, false⟩
      (by decide)).2.1 (by decide) (by decide) (by decide)).2,
   ((C4_symbol_define_policy _ "L" .set 3 ⟨"L", .label, 0, true, false⟩
      (by decide)).2.2 (Or.inr rfl)).2⟩

/-- `strcaseeq` is reflexive. -/
theorem strcaseeq_refl (s : String) : strcaseeq s s = true := by
  simp [strcaseeq]

/-- C6 counterexample: a bare identifier `FOO` at column 1 without a colon is
*not* treated as a label — the line errors with "unknown instruction or
macro" and defines nothing — while `FOO:` defines the Label `FOO` at the
current `pc`. -/
theorem C6_counterexample :
    symbol_lookup (parse_line_toks {} ⟨true, [Tok.ident "FOO"]⟩).1 "FOO" = none ∧
    (parse_line_toks {} ⟨true, [Tok.ident "FOO"]⟩).1.errlog =
      [AsmErr.unknownInstruction] ∧
    (parse_line_toks {} ⟨true, [Tok.ident "FOO"]⟩).2 = false ∧
    (parse_line_toks {} ⟨true, [Tok.ident "FOO"]⟩).1.model_gap = false ∧
    symbol_lookup (parse_line_toks {} ⟨true, [Tok.ident "FOO", Tok.colon]⟩).1 "FOO" =
      some ⟨"FOO", .label, 0, true, false⟩ ∧
    (parse_line_toks {} ⟨true, [Tok.ident "FOO", Tok.colon]⟩).2 = true := by
  decide

/-- C6 (amended): an identifier at column 1 without a colon is a label only
when the next token is `MACRO`/`EQU`/`SET` or `=`; otherwise it is treated
as a mnemonic — a bare identifier line that names no directive, instruction
or macro errors with "unknown instruction or macro" and defines no symbol,
whereas the same identifier *with* a colon is defined as a Label at the
current `pc`. -/
theorem C6_column1_label_rule (name : String)
    (hdir : is_any_directive name = false)
    (henc : instruction_table.find? (fun e => strcaseeq name e.1) = none) :
    parse_line_toks {} ⟨true, [Tok.ident name]⟩ =
      (errorLog {} AsmErr.unknownInstruction, false) ∧
    symbol_lookup (parse_line_toks {} ⟨true, [Tok.ident name, Tok.colon]⟩).1 name =
      some { name := name, type := .label, value := 0, defined := true,
             referenced := false } ∧
    (∀ (col1 : Bool) (next : Tok), leadingIsLabel col1 (some next) = true ↔
      (next = Tok.colon ∨ (col1 = true ∧ (next = Tok.equalsTok ∨
        (∃ s, next = Tok.ident s ∧ (strcaseeq s "MACRO" = true ∨
          strcaseeq s "EQU" = true ∨ strcaseeq s "SET" = true)))))) := by
  refine ⟨?_, ?_, ?_⟩
  · show parse_line_tail {} none name [] = _
    unfold parse_line_tail
    rw [if_neg (by simp [hdir])]
    unfold encode_instruction
    rw [henc]
    simp [symbol_lookup]
  · show symbol_lookup (symbol_define {} name .label 0).1 name = _
    unfold symbol_define
    simp [symbol_lookup, List.find?, strcaseeq_refl]
  · intro col1 next
    cases next <;> cases col1 <;>
      simp [leadingIsLabel, labelDirectiveNext, or_assoc]

/-- C6 witness: the identifier `FOO` (no directive, instruction or macro of
that name exists). -/
theorem C6_column1_label_rule_witness :
    parse_line_toks {} ⟨true, [Tok.ident "FOO"]⟩ =
      (errorLog {} AsmErr.unknownInstruction, false) ∧
    symbol_lookup (parse_line_toks {} ⟨true, [Tok.ident "FOO", Tok.colon]⟩).1 "FOO" =
      some { name := "FOO", type := .label, value := 0, defined := true,
             referenced := false } :=
  ⟨(C6_column1_label_rule "FOO" (by decide) (by rfl)).1,
   (C6_column1_label_rule "FOO" (by decide) (by rfl)).2.1⟩


theorem driver_after_loop_iterations {σ : Type} (emitP : σ → σ × Bool) (s : σ) (n : Nat) :
    (driver_after_loop emitP s n).iterations = n := rfl

theorem driver_go_zero_iterations {σ : Type} (step : σ → σ × Nat × Bool)
    (emitP : σ → σ × Bool) (s : σ) (it last : Nat) :
    (driver_go step emitP 0 s it last).iterations = it := rfl

/-- The loop performs between `it` and `it + fuel` further iterations, and at
least one when fuel remains. -/
theorem driver_go_iter_bounds {σ : Type} (step : σ → σ × Nat × Bool)
    (emitP : σ → σ × Bool) :
    ∀ (fuel : Nat) (s : σ) (it last : Nat),
      it ≤ (driver_go step emitP fuel s it last).iterations ∧
      (driver_go step emitP fuel s it last).iterations ≤ it + fuel ∧
      (1 ≤ fuel → it + 1 ≤ (driver_go step emitP fuel s it last).iterations) := by
  intro fuel
  induction fuel with
  | zero =>
    intro s it last
    rw [driver_go_zero_iterations]
    refine ⟨le_refl it, by omega, by omega⟩
  | succ fuel ih =>
    intro s it last
    simp only [driver_go]
    cases hE : (step s).2.2
    · simp only [Bool.false_eq_true, if_false]
      by_cases hS : 1 < it + 1 ∧ (step s).2.1 = last
      · rw [if_pos hS, driver_after_loop_iterations]
        refine ⟨by omega, by omega, by omega⟩
      · rw [if_neg hS]
        by_cases hM : it + 1 < MAX_ITERATIONS
        · rw [if_pos hM]
          have := ih (step s).1 (it + 1) (step s).2.1
          refine ⟨by omega, by omega, by omega⟩
        · rw [if_neg hM, driver_after_loop_iterations]
          refine ⟨by omega, by omega, by omega⟩
    · simp only [if_true]
      refine ⟨by omega, by omega, by omega⟩

/-- If iteration `i` is the first (with an error-free prefix) whose final
`pc` repeats the previous iteration's, the loop stops there. -/
theorem driver_go_stab {σ : Type} (step : σ → σ × Nat × Bool) (emitP : σ → σ × Bool)
    (s : σ) (i : Nat) (h2 : 2 ≤ i) (hiM : i ≤ MAX_ITERATIONS)
    (herr : ∀ j, 1 ≤ j → j ≤ i → iterErr step s j = false)
    (hfirst : ∀ j, 2 ≤ j → j < i → iterPc step s j ≠ iterPc step s (j - 1))
    (hstab : iterPc step s i = iterPc step s (i - 1)) :
    ∀ (fuel it last : Nat), fuel + it = MAX_ITERATIONS → it < i →
      ((it = 0 ∧ last = 0) ∨ (1 ≤ it ∧ last = iterPc step s it)) →
      driver_go step emitP fuel (iterState step s it) it last =
        driver_after_loop emitP (iterState step s i) i := by
  intro fuel
  induction fuel with
  | zero =>
    intro it last hf hlt _
    have : MAX_ITERATIONS = 10 := rfl
    omega
  | succ fuel ih =>
    intro it last hf hlt hlast
    simp only [driver_go]
    have herr1 : (step (iterState step s it)).2.2 = false :=
      herr (it + 1) (by omega) (by omega)
    rw [herr1]
    simp only [Bool.false_eq_true, if_false]
    by_cases hi : it + 1 = i
    · have h1lt : 1 < it + 1 := by omega
      have hpceq : (step (iterState step s it)).2.1 = last := by
        have hit1 : 1 ≤ it := by omega
        rcases hlast with ⟨h0, _⟩ | ⟨_, hl⟩
        · omega
        · rw [hl]
          show iterPc step s (it + 1) = iterPc step s it
          have hit : it = i - 1 := by omega
          rw [hi, hit]
          exact hstab
      rw [if_pos ⟨h1lt, hpceq⟩]
      show driver_after_loop emitP (iterState step s (it + 1)) (it + 1) = _
      rw [hi]
    · have hne : ¬(1 < it + 1 ∧ (step (iterState step s it)).2.1 = last) := by
        rintro ⟨hgt, heq⟩
        have hit1 : 1 ≤ it := by omega
        rcases hlast with ⟨h0, _⟩ | ⟨_, hl⟩
        · omega
        · rw [hl] at heq
          exact hfirst (it + 1) (by omega) (by omega) heq
      rw [if_neg hne]
      have hlt10 : it + 1 < MAX_ITERATIONS := by omega
      rw [if_pos hlt10]
      exact ih (it + 1) ((step (iterState step s it)).2.1) (by omega) (by omega)
        (Or.inr ⟨by omega, rfl⟩)

/-- With no error and no stabilisation through iteration 10, the loop runs
all `MAX_ITERATIONS` iterations and falls through. -/
theorem driver_go_nostab {σ : Type} (step : σ → σ × Nat × Bool) (emitP : σ → σ × Bool)
    (s : σ)
    (herr : ∀ j, 1 ≤ j → j ≤ MAX_ITERATIONS → iterErr step s j = false)
    (hfirst : ∀ j, 2 ≤ j → j ≤ MAX_ITERATIONS → iterPc step s j ≠ iterPc step s (j - 1)) :
    ∀ (fuel it last : Nat), fuel + it = MAX_ITERATIONS →
      ((it = 0 ∧ last = 0) ∨ (1 ≤ it ∧ last = iterPc step s it)) →
      driver_go step emitP fuel (iterState step s it) it last =
        driver_after_loop emitP (iterState step s MAX_ITERATIONS) MAX_ITERATIONS := by
  intro fuel
  induction fuel with
  | zero =>
    intro it last hf _
    show driver_after_loop emitP (iterState step s it) it = _
    rw [show it = MAX_ITERATIONS from by omega]
  | succ fuel ih =>
    intro it last hf hlast
    simp only [driver_go]
    have herr1 : (step (iterState step s it)).2.2 = false :=
      herr (it + 1) (by omega) (by omega)
    rw [herr1]
    simp only [Bool.false_eq_true, if_false]
    have hne : ¬(1 < it + 1 ∧ (step (iterState step s it)).2.1 = last) := by
      rintro ⟨hgt, heq⟩
      have hit1 : 1 ≤ it := by omega
      rcases hlast with ⟨h0, _⟩ | ⟨_, hl⟩
      · omega
      · rw [hl] at heq
        exact hfirst (it + 1) (by omega) (by omega) heq
    rw [if_neg hne]
    by_cases hM : it + 1 < MAX_ITERATIONS
    · rw [if_pos hM]
      exact ih (it + 1) ((step (iterState step s it)).2.1) (by omega)
        (Or.inr ⟨by omega, rfl⟩)
    · rw [if_neg hM]
      show driver_after_loop emitP (iterState step s (it + 1)) (it + 1) = _
      rw [show it + 1 = MAX_ITERATIONS from by omega]

/-- C3: the sizing loop of `assembler_assemble_file` (i) always terminates
after between 1 and `MAX_ITERATIONS` (10) iterations; (ii) with an
error-free prefix it exits exactly at the first iteration `i ≥ 2` whose
final `pc` equals the previous iteration's, and proceeds to the Emit pass;
(iii) if all 10 error-free iterations pass without stabilising, it stops at
10, issues the warning, and still proceeds to the Emit pass using the
current sizing state. -/
theorem C3_sizing_loop_terminates {σ : Type} (step : σ → σ × Nat × Bool)
    (emitP : σ → σ × Bool) (s : σ) :
    (1 ≤ (assembler_assemble_file step emitP s).iterations ∧
     (assembler_assemble_file step emitP s).iterations ≤ MAX_ITERATIONS) ∧
    (∀ i, 2 ≤ i → i ≤ MAX_ITERATIONS →
      (∀ j, 1 ≤ j → j ≤ i → iterErr step s j = false) →
      (∀ j, 2 ≤ j → j < i → iterPc step s j ≠ iterPc step s (j - 1)) →
      iterPc step s i = iterPc step s (i - 1) →
      (assembler_assemble_file step emitP s).iterations = i ∧
      (assembler_assemble_file step emitP s).sizingAborted = false ∧
      (assembler_assemble_file step emitP s).emitRan = true ∧
      (assembler_assemble_file step emitP s).state = (emitP (iterState step s i)).1) ∧
    ((∀ j, 1 ≤ j → j ≤ MAX_ITERATIONS → iterErr step s j = false) →
     (∀ j, 2 ≤ j → j ≤ MAX_ITERATIONS → iterPc step s j ≠ iterPc step s (j - 1)) →
     (assembler_assemble_file step emitP s).iterations = MAX_ITERATIONS ∧
     (assembler_assemble_file step emitP s).warned = true ∧
     (assembler_assemble_file step emitP s).emitRan = true ∧
     (assembler_assemble_file step emitP s).state =
       (emitP (iterState step s MAX_ITERATIONS)).1) := by
  refine ⟨?_, ?_, ?_⟩
  · have h := driver_go_iter_bounds step emitP MAX_ITERATIONS s 0 0
    have h10 : (1 : Nat) ≤ MAX_ITERATIONS := by decide
    exact ⟨by simpa using h.2.2 h10, by simpa using h.2.1⟩
  · intro i h2 hiM herr hfirst hstab
    have hh : assembler_assemble_file step emitP s =
        driver_after_loop emitP (iterState step s i) i :=
      driver_go_stab step emitP s i h2 hiM herr hfirst hstab
        MAX_ITERATIONS 0 0 (by omega) (by omega) (Or.inl ⟨rfl, rfl⟩)
    rw [hh]
    exact ⟨rfl, rfl, rfl, rfl⟩
  · intro herr hfirst
    have hh : assembler_assemble_file step emitP s =
        driver_after_loop emitP (iterState step s MAX_ITERATIONS) MAX_ITERATIONS :=
      driver_go_nostab step emitP s herr hfirst
        MAX_ITERATIONS 0 0 (by omega) (Or.inl ⟨rfl, rfl⟩)
    rw [hh]
    exact ⟨rfl, rfl, rfl, rfl⟩

/-- C3 witness: a step whose final `pc` is always 42 stabilises at
iteration 2, and the driver still runs the emit pass. -/
theorem C3_sizing_loop_terminates_witness :
    (assembler_assemble_file (fun n : Nat => (n + 1, 42, false))
      (fun n => (n, true)) 0).iterations = 2 ∧
    (assembler_assemble_file (fun n : Nat => (n + 1, 42, false))
      (fun n => (n, true)) 0).emitRan = true :=
  have h := (C3_sizing_loop_terminates (fun n : Nat => (n + 1, 42, false))
    (fun n => (n, true)) 0).2.1 2 (by decide) (by decide)
    (fun _ _ _ => rfl) (fun j hj hlt => absurd hlt (by omega)) rfl
  ⟨h.1, h.2.2.1⟩

end Tlcs900


